import Mathlib

/-!
Verification development for the Reality Check behavioral signal
extraction engine (RageDetector, DistortionDetector, NLPPipeline).

Modelling conventions:
* JS strings are modelled as `List Char`; `String.toLowerCase` is modelled
  character-wise on the ASCII range (`lowerChar`), which is exact for the
  texts the detectors' rule tables target.
* JS numbers are modelled as exact rationals `ℚ`; the arithmetic in the
  source is a composition of `+`, `*`, `/`, `Math.min`/`Math.max` on
  small decimal constants, which `ℚ` reproduces without rounding.
* The regular expressions of the rule tables are embedded as a small
  syntax `RE` (literals, `.*`, an optional character `c?`, `\b`,
  concatenation, alternation) together with a backtracking matcher
  `matchEnds` whose candidate order (alternatives left to right, `.*`
  greedy) reproduces the JS engine's choice, and a global scanner
  `jsMatchAll` reproducing `String.prototype.match` with the `g` flag
  (leftmost match, continue after each match's end).
-/

namespace RealityCheck

/-- Whitespace as recognised by JS `String.prototype.trim` and `\s`,
restricted to the characters that can appear in the engine's inputs:
space, tab, LF, VT, FF, CR and NBSP. -/
def isJsWs (c : Char) : Bool :=
  c == ' ' || c == '\t' || c == '\n' || c == Char.ofNat 11 ||
  c == Char.ofNat 12 || c == '\r' || c == Char.ofNat 160

/-- Character-wise model of `String.prototype.toLowerCase` on ASCII:
the 26 uppercase letters map to their lowercase forms, everything else
is unchanged. -/
def lowerChar (c : Char) : Char :=
  if c == 'A' then 'a' else if c == 'B' then 'b' else if c == 'C' then 'c'
  else if c == 'D' then 'd' else if c == 'E' then 'e' else if c == 'F' then 'f'
  else if c == 'G' then 'g' else if c == 'H' then 'h' else if c == 'I' then 'i'
  else if c == 'J' then 'j' else if c == 'K' then 'k' else if c == 'L' then 'l'
  else if c == 'M' then 'm' else if c == 'N' then 'n' else if c == 'O' then 'o'
  else if c == 'P' then 'p' else if c == 'Q' then 'q' else if c == 'R' then 'r'
  else if c == 'S' then 's' else if c == 'T' then 't' else if c == 'U' then 'u'
  else if c == 'V' then 'v' else if c == 'W' then 'w' else if c == 'X' then 'x'
  else if c == 'Y' then 'y' else if c == 'Z' then 'z' else c

/-- `text.toLowerCase()` on the `List Char` model. -/
def toLowerL (s : List Char) : List Char := s.map lowerChar

/-- `String.prototype.trim`: strip leading and trailing whitespace. -/
def trimL (s : List Char) : List Char :=
  ((s.dropWhile isJsWs).reverse.dropWhile isJsWs).reverse

/-- `str.substring(a, b)` for `a ≤ b` (the only way the source calls it). -/
def slice (s : List Char) (a b : Nat) : List Char := (s.drop a).take (b - a)

/-- `hay.indexOf(needle)`: the first index where `needle` occurs in `hay`
(`none` models JS's `-1`). -/
def indexOfSub (hay needle : List Char) : Option Nat :=
  (List.range (hay.length + 1)).find? (fun i => needle.isPrefixOf (hay.drop i))

/-- `hay.includes(needle)` (plain, case-sensitive substring test). -/
def hasSub (hay needle : List Char) : Bool :=
  (List.range (hay.length + 1)).any (fun i => needle.isPrefixOf (hay.drop i))

/-- ASCII uppercase letter, the JS character class `[A-Z]`. -/
def isUpperAZ (c : Char) : Bool := 'A' ≤ c && c ≤ 'Z'

/-- ASCII letter, the JS character class `[A-Za-z]`. -/
def isLetterAZ (c : Char) : Bool := ('A' ≤ c && c ≤ 'Z') || ('a' ≤ c && c ≤ 'z')

/-- JS word character `\w` = `[A-Za-z0-9_]`, the class `\b` is defined from. -/
def isWordChar (c : Char) : Bool :=
  ('A' ≤ c && c ≤ 'Z') || ('a' ≤ c && c ≤ 'z') || ('0' ≤ c && c ≤ '9') || c == '_'

/-- JS line terminators, which `.` does not match. -/
def isLineTerm (c : Char) : Bool :=
  c == '\n' || c == '\r' || c == Char.ofNat 0x2028 || c == Char.ofNat 0x2029

/-- Helper for `runsOf`: the run of `p`-characters at the head of the
suffix (possibly empty), and the later complete runs. -/
def runsSplit (p : Char → Bool) : List Char → List Char × List (List Char)
  | [] => ([], [])
  | c :: cs =>
    let pr := runsSplit p cs
    if p c then (c :: pr.1, pr.2)
    else ([], if pr.1.isEmpty then pr.2 else pr.1 :: pr.2)

/-- Maximal runs of consecutive characters satisfying `p`, in order.
`runsOf p s` models `s.match(/X+/g)` for a character class `X`
(each returned run is nonempty and maximal). -/
def runsOf (p : Char → Bool) (s : List Char) : List (List Char) :=
  if (runsSplit p s).1.isEmpty then (runsSplit p s).2
  else (runsSplit p s).1 :: (runsSplit p s).2

/-- The regular-expression fragment the rule tables use. -/
inductive RE : Type
  | lit (w : List Char)
  | anyStar
  | opt (c : Char)
  | bnd
  | cat (r1 r2 : RE)
  | alt (r1 r2 : RE)

/-- Case-insensitive literal match of `w` at the head of the text suffix
(the `i` flag: text characters are lowered, the table patterns are already
lowercase). -/
def litAt : List Char → List Char → Bool
  | _, [] => true
  | [], _ :: _ => false
  | c :: cs, d :: ds => lowerChar c == d && litAt cs ds

/-- Whether position `i` of `s` holds a word character. -/
def wordAt (s : List Char) (i : Nat) : Bool :=
  match s.get? i with
  | some c => isWordChar c
  | none => false

/-- The `\b` assertion at position `i` of `s`. -/
def boundaryAt (s : List Char) (i : Nat) : Bool :=
  (match i with
   | 0 => false
   | j + 1 => wordAt s j) != wordAt s i

/-- All end positions of a match of `re` at position `i` of `s`, in the
JS backtracking engine's preference order (first alternative first, `.*`
longest first); the engine's chosen match ends at the head. -/
def matchEnds : RE → List Char → Nat → List Nat
  | .lit w, s, i => if litAt (s.drop i) w then [i + w.length] else []
  | .anyStar, s, i =>
    (List.range (((s.drop i).takeWhile (fun c => !isLineTerm c)).length + 1)).reverse.map
      (fun k => i + k)
  | .opt c, s, i =>
    match s.get? i with
    | some d => if lowerChar d == c then [i + 1, i] else [i]
    | none => [i]
  | .bnd, s, i => if boundaryAt s i then [i] else []
  | .cat r1 r2, s, i => (matchEnds r1 s i).flatMap (fun e => matchEnds r2 s e)
  | .alt r1 r2, s, i => matchEnds r1 s i ++ matchEnds r2 s i

/-- One step of the `g`-flag scan: find the leftmost match at or after
position `i`, record its span, continue after its end (JS advances by one
on an empty match). -/
def matchLoop (re : RE) (s : List Char) : Nat → Nat → List (Nat × Nat)
  | 0, _ => []
  | fuel + 1, i =>
    if i > s.length then []
    else
      match (matchEnds re s i).head? with
      | some e => (i, e) :: matchLoop re s fuel (max (i + 1) e)
      | none => matchLoop re s fuel (i + 1)

/-- `s.match(re)` with the `g` flag: the list of matched substrings
(`[]` models JS's `null`). -/
def jsMatchAll (re : RE) (s : List Char) : List (List Char) :=
  (matchLoop re s (s.length + 2) 0).map (fun p => slice s p.1 p.2)

/-- Alternation of a nonempty list of branches, first branch preferred
(a pattern group `(a|b|c)`). -/
def altOf : RE → List RE → RE
  | r, [] => r
  | r, r' :: rs => .alt r (altOf r' rs)

/-- A group of plain literal alternatives `(w1|w2|…)`. -/
def oneOf (w : String) (ws : List String) : RE :=
  altOf (.lit w.toList) (ws.map (fun x => RE.lit x.toList))

/-- A two-clause pattern `(…)​.*(…)` as used by the distortion rule table. -/
def pat2 (g1 g2 : RE) : RE := .cat g1 (.cat .anyStar g2)

/-- A three-clause pattern `(…)​.*(…)​.*(…)`. -/
def pat3 (g1 g2 g3 : RE) : RE := .cat g1 (.cat .anyStar (.cat g2 (.cat .anyStar g3)))

/-- A rage or profanity rule `\b(…)\b`. -/
def bounded (g : RE) : RE := .cat .bnd (.cat g .bnd)

/-- The seven cognitive distortion categories (`DistortionType`). -/
inductive DistortionType : Type
  | persecution
  | grandiosity
  | conspiracy
  | catastrophizing
  | allOrNothing
  | mindReading
  | fortuneTelling
deriving DecidableEq

/-- The key order of the `typeCount` record literal and of the
`typeWeights` table (`Object.entries` iterates in this order). -/
def allDistortionTypes : List DistortionType :=
  [.persecution, .grandiosity, .conspiracy, .catastrophizing,
   .allOrNothing, .mindReading, .fortuneTelling]

/-- The five rage indicator categories (`RageType`). -/
inductive RageType : Type
  | verbalAggression
  | threatLanguage
  | profanity
  | capsLock
  | exclamationSpam
deriving DecidableEq

/-- `RuleConfig` of the distortion detector: the pattern is stored in
compiled form (`RE`) rather than as source text. -/
structure RuleConfig where
  ruleId : String
  pattern : RE
  weight : ℚ
  category : DistortionType
  enabled : Bool

/-- `CognitiveDistortion`. -/
structure CognitiveDistortion where
  type : DistortionType
  severity : ℚ
  keywords : List (List Char)
  context : List Char
deriving DecidableEq

/-- `RageIndicator`. -/
structure RageIndicator where
  type : RageType
  intensity : ℚ
  pattern : List Char
  context : List Char
deriving DecidableEq

/-- `SentimentAnalysis` (valence, arousal, confidence). -/
structure Sentiment where
  valence : ℚ
  arousal : ℚ
  confidence : ℚ
deriving DecidableEq

/-- `NLPAnalysis`, the per-item analysis record. -/
structure NLPAnalysis where
  sentiment : Sentiment
  cognitiveDistortions : List CognitiveDistortion
  rageIndicators : List RageIndicator
  confidence : ℚ
  processingTime : ℚ
deriving DecidableEq

/-- `DistortionDetector.initializeRules()`: the 18-rule table, in source
order, each pattern transcribed from the `RuleConfig.pattern` string
(`(a|b).*(c|d)` groups; `i'm` has a literal apostrophe). -/
def defaultRules : List RuleConfig :=
  [{ ruleId := "persecution_watching",
     pattern := pat3 (oneOf "they" ["everyone", "people"])
       (oneOf "watching" ["monitoring", "tracking", "following", "stalking"])
       (oneOf "me" ["us"]),
     weight := 8/10, category := .persecution, enabled := true },
   { ruleId := "persecution_targeting",
     pattern := pat3 (oneOf "they" ["everyone"])
       (oneOf "targeting" ["after", "coming for", "out to get"])
       (oneOf "me" ["us"]),
     weight := 9/10, category := .persecution, enabled := true },
   { ruleId := "persecution_control",
     pattern := pat3 (oneOf "they" ["government", "system"])
       (oneOf "controlling" ["manipulating", "brainwashing"])
       (oneOf "me" ["us", "people"]),
     weight := 7/10, category := .persecution, enabled := true },
   { ruleId := "conspiracy_deep_state",
     pattern := pat2 (oneOf "deep state" ["shadow government", "cabal", "elites"])
       (oneOf "control" ["run", "manipulate"]),
     weight := 6/10, category := .conspiracy, enabled := true },
   { ruleId := "conspiracy_planned",
     pattern := pat3 (oneOf "all planned" ["orchestrated", "coordinated"])
       (oneOf "by" ["from"])
       (oneOf "them" ["elites", "government"]),
     weight := 7/10, category := .conspiracy, enabled := true },
   { ruleId := "conspiracy_sheep",
     pattern := pat2 (oneOf "sheep" ["sheeple", "wake up", "open your eyes"])
       (altOf (.lit "truth".toList)
         [.lit "reality".toList,
          .cat (.lit "what".toList) (.cat .anyStar (.lit "really".toList))]),
     weight := 5/10, category := .conspiracy, enabled := true },
   { ruleId := "grandiosity_chosen",
     pattern := pat2 (oneOf "i am" ["i'm"])
       (oneOf "chosen" ["special", "enlightened", "awakened", "above"]),
     weight := 6/10, category := .grandiosity, enabled := true },
   { ruleId := "grandiosity_superior",
     pattern := pat3 (oneOf "i" ["me"])
       (oneOf "superior" ["better than", "above"])
       (oneOf "everyone" ["most people", "them"]),
     weight := 7/10, category := .grandiosity, enabled := true },
   { ruleId := "grandiosity_genius",
     pattern := pat2 (oneOf "i am" ["i'm"])
       (oneOf "genius" ["brilliant", "extraordinary", "gifted"]),
     weight := 4/10, category := .grandiosity, enabled := true },
   { ruleId := "catastrophizing_end",
     pattern := pat2 (oneOf "end of" ["collapse", "destruction", "apocalypse", "doom"])
       (oneOf "world" ["society", "everything"]),
     weight := 6/10, category := .catastrophizing, enabled := true },
   { ruleId := "catastrophizing_disaster",
     pattern := pat2 (oneOf "disaster" ["catastrophe", "crisis", "emergency"])
       (oneOf "coming" ["approaching", "inevitable"]),
     weight := 7/10, category := .catastrophizing, enabled := true },
   { ruleId := "catastrophizing_worst",
     pattern := pat2 (oneOf "worst" ["terrible", "horrible", "awful"])
       (oneOf "ever" ["possible", "imaginable"]),
     weight := 5/10, category := .catastrophizing, enabled := true },
   { ruleId := "all_or_nothing_always",
     pattern := pat2 (oneOf "always" ["never", "everyone", "no one", "everything", "nothing"])
       (oneOf "does" ["is", "will"]),
     weight := 4/10, category := .allOrNothing, enabled := true },
   { ruleId := "all_or_nothing_perfect",
     pattern := pat2 (oneOf "perfect" ["complete", "total", "absolute"])
       (oneOf "failure" ["success", "disaster", "victory"]),
     weight := 5/10, category := .allOrNothing, enabled := true },
   { ruleId := "mind_reading_think",
     pattern := pat3 (oneOf "they" ["everyone", "people"])
       (oneOf "think" ["believe", "know"])
       (oneOf "i am" ["i'm", "about me"]),
     weight := 6/10, category := .mindReading, enabled := true },
   { ruleId := "mind_reading_judging",
     pattern := pat3 (oneOf "they" ["everyone"])
       (oneOf "judging" ["laughing at", "looking down on"])
       (oneOf "me" ["us"]),
     weight := 7/10, category := .mindReading, enabled := true },
   { ruleId := "fortune_telling_will",
     pattern := pat2 (oneOf "this will" ["it will", "they will"])
       (oneOf "destroy" ["ruin", "end", "fail"]),
     weight := 5/10, category := .fortuneTelling, enabled := true },
   { ruleId := "fortune_telling_never",
     pattern := pat2 (oneOf "i will never" ["it will never", "nothing will ever"])
       (oneOf "work" ["succeed", "get better"]),
     weight := 6/10, category := .fortuneTelling, enabled := true }]

/-- `DistortionDetector.checkRule`: all matches of the rule's pattern in
the (already lowercased) text. The source's `try`/`catch` around pattern
compilation never fires for the embedded, pre-compiled table. -/
def checkRule (text : List Char) (rule : RuleConfig) : List (List Char) :=
  jsMatchAll rule.pattern text

/-- `DistortionDetector.extractContext`: up to 50 characters of context on
each side of the first (case-insensitive) occurrence of `mtch` in `text`;
when the occurrence cannot be located, the match itself. -/
def extractContext (text mtch : List Char) : List Char :=
  match indexOfSub (toLowerL text) (toLowerL mtch) with
  | none => mtch
  | some i => trimL (slice text (i - 50) (min text.length (i + mtch.length + 50)))

/-- `DistortionDetector.createDistortion` (`ms` is the source's
`matches` argument). -/
def createDistortion (rule : RuleConfig) (ms : List (List Char))
    (context : List Char) : Option CognitiveDistortion :=
  match ms with
  | [] => none
  | m0 :: _ =>
    some { type := rule.category,
           severity := min 1 (rule.weight + min ((ms.length : ℚ) * (1/10)) (1/2)),
           keywords := ms.map (fun m => trimL (toLowerL m)),
           context := extractContext context m0 }

/-- Stable descending insertion by a score: `x` goes after every element
whose score is at least `key x`, modelling the (stable) JS
`sort((a, b) => b.score - a.score)`. -/
def insertDesc (key : α → ℚ) (x : α) : List α → List α
  | [] => [x]
  | y :: ys => if key y < key x then x :: y :: ys else y :: insertDesc key x ys

/-- Stable descending sort by a score. -/
def sortDesc (key : α → ℚ) (l : List α) : List α :=
  l.foldl (fun acc x => insertDesc key x acc) []

/-- The rule loop of `DistortionDetector.detectDistortions`: for each
enabled rule with at least one match, the created distortion, in rule
order (before the final sort). -/
def collectDistortions (rules : List RuleConfig) (text : List Char) :
    List CognitiveDistortion :=
  rules.filterMap (fun rule =>
    if rule.enabled then
      match checkRule (toLowerL text) rule with
      | [] => none
      | m :: ms => createDistortion rule (m :: ms) text
    else none)

/-- `DistortionDetector.detectDistortions`, with the mutable rule table
passed explicitly: the collected distortions sorted by severity,
highest first. -/
def detectDistortions (rules : List RuleConfig) (text : List Char) :
    List CognitiveDistortion :=
  sortDesc (fun d => d.severity) (collectDistortions rules text)

/-- `getDistortionSummary`'s running `totalSeverity` accumulator. -/
def sumSeverity (ds : List CognitiveDistortion) : ℚ :=
  ds.foldl (fun acc d => acc + d.severity) 0

/-- `getDistortionSummary`'s `typeCount` accumulator (the record literal
initializes every category to 0, so the map is total). -/
def countTypes (ds : List CognitiveDistortion) : DistortionType → Nat :=
  ds.foldl (fun acc d => Function.update acc d.type (acc d.type + 1)) (fun _ => 0)

/-- `getDistortionSummary`'s `mostSevereType` loop: strict improvement on
the running maximum (initially 0) updates the reported type. -/
def mostSevere : List CognitiveDistortion → ℚ → Option DistortionType →
    Option DistortionType
  | [], _, m => m
  | d :: ds, maxSev, m =>
    if maxSev < d.severity then mostSevere ds d.severity (some d.type)
    else mostSevere ds maxSev m

/-- The summary record returned by `getDistortionSummary`. -/
structure DistortionSummary where
  totalSeverity : ℚ
  mostSevereType : Option DistortionType
  typeCount : DistortionType → Nat

/-- `DistortionDetector.getDistortionSummary`. -/
def getDistortionSummary (ds : List CognitiveDistortion) : DistortionSummary :=
  { totalSeverity := min 1 (sumSeverity ds),
    mostSevereType := mostSevere ds 0 none,
    typeCount := countTypes ds }

/-- The `typeWeights` table of `calculateDistortionRisk`. -/
def distortionTypeWeight : DistortionType → ℚ
  | .persecution => 9/10
  | .conspiracy => 8/10
  | .grandiosity => 6/10
  | .catastrophizing => 7/10
  | .allOrNothing => 5/10
  | .mindReading => 6/10
  | .fortuneTelling => 5/10

/-- `DistortionDetector.calculateDistortionRisk`. -/
def calculateDistortionRisk (rules : List RuleConfig) (text : List Char) : ℚ :=
  let summary := getDistortionSummary (detectDistortions rules text)
  let weightedRisk :=
    (allDistortionTypes.map
      (fun t => (summary.typeCount t : ℚ) * distortionTypeWeight t * (1/10))).sum
  min 1 (weightedRisk + summary.totalSeverity * (1/2))

/-- `DistortionDetector.updateRule`: set the `enabled` flag of the first
rule with the given id; a missing id changes nothing. -/
def updateRule (rules : List RuleConfig) (ruleId : String) (enabled : Bool) :
    List RuleConfig :=
  match rules with
  | [] => []
  | r :: rs =>
    if r.ruleId == ruleId then { r with enabled := enabled } :: rs
    else r :: updateRule rs ruleId enabled

/-- `RageDetector.initializePatterns()`: the eight weighted patterns, in
source order, each transcribed from its `/\b(…)\b/gi` literal (`s?`
becomes `RE.opt 's'`). -/
def ragePatterns : List (RageType × RE × ℚ) :=
  [(.verbalAggression,
    bounded (altOf (.lit "hate".toList)
      [.lit "despise".toList, .lit "loathe".toList, .lit "detest".toList,
       .lit "can't stand".toList,
       .cat (.lit "disgust".toList) (.cat (.opt 's') (.lit " me".toList)),
       .cat (.lit "make".toList) (.cat (.opt 's') (.lit " me sick".toList))]),
    7/10),
   (.verbalAggression,
    bounded (altOf (.cat (.lit "idiot".toList) (.opt 's'))
      [.cat (.lit "moron".toList) (.opt 's'),
       .lit "stupid".toList, .lit "dumb".toList, .lit "pathetic".toList,
       .lit "worthless".toList, .lit "garbage".toList, .lit "trash".toList]),
    6/10),
   (.verbalAggression,
    bounded (oneOf "shut up"
      ["shut the hell up", "get lost", "go away", "leave me alone"]),
    5/10),
   (.threatLanguage,
    bounded (oneOf "i'll kill"
      ["gonna kill", "want to kill", "should die", "deserve to die"]),
    1),
   (.threatLanguage,
    bounded (oneOf "i'll destroy"
      ["gonna destroy", "wipe out", "eliminate", "get rid of"]),
    9/10),
   (.threatLanguage,
    bounded (oneOf "hunt down"
      ["track down", "come after", "find you", "get you"]),
    8/10),
   (.verbalAggression,
    bounded (oneOf "furious"
      ["enraged", "livid", "seething", "boiling", "exploding with rage"]),
    8/10),
   (.verbalAggression,
    bounded (oneOf "so angry"
      ["pissed off", "fed up", "had enough", "can't take it"]),
    6/10)]

/-- `RageDetector.extractContext`: as the distortion detector's, but with
a 30-character window on each side. -/
def rageExtractContext (text mtch : List Char) : List Char :=
  match indexOfSub (toLowerL text) (toLowerL mtch) with
  | none => mtch
  | some i => trimL (slice text (i - 30) (min text.length (i + mtch.length + 30)))

/-- `RageDetector.createRageIndicator` (`ms` is the source's `matches`). -/
def createRageIndicator (type : RageType) (ms : List (List Char)) (weight : ℚ)
    (context : List Char) : Option RageIndicator :=
  match ms with
  | [] => none
  | m0 :: _ =>
    some { type := type,
           intensity := min 1 (weight + ((ms.length : ℚ) - 1) * (1/10)),
           pattern := m0,
           context := rageExtractContext context m0 }

/-- `RageDetector.detectCapsLock`. -/
def detectCapsLock (text : List Char) : List RageIndicator :=
  let letters := text.filter isLetterAZ
  let capitals := text.filter isUpperAZ
  if letters.length > 10 ∧ capitals.length > 0 then
    let capsShare : ℚ := (capitals.length : ℚ) / (letters.length : ℚ)
    let capsSequences := (runsOf isUpperAZ text).filter (fun r => 3 ≤ r.length)
    if capsShare > 1/2 ∨ 0 < capsSequences.length then
      [{ type := .capsLock,
         intensity := min 1 (capsShare + (capsSequences.length : ℚ) * (1/5)),
         pattern := if capsSequences.isEmpty then "excessive caps".toList
                    else List.intercalate ", ".toList capsSequences,
         context := rageExtractContext text
           (match capitals with | [] => [] | c :: _ => [c]) }]
    else []
  else []

/-- `RageDetector.detectExclamationSpam`. `runsOf` models `/!+/g`;
`Math.max(...)` over the nonempty run-length list is a fold. -/
def detectExclamationSpam (text : List Char) : List RageIndicator :=
  let multiExcl := (runsOf (fun c => c == '!') text).filter (fun r => 1 < r.length)
  if 0 < multiExcl.length then
    let maxLength := (multiExcl.map List.length).foldl max 0
    [{ type := .exclamationSpam,
       intensity := min 1 (((maxLength : ℚ) - 1) * (1/5) + (multiExcl.length : ℚ) * (1/10)),
       pattern := List.intercalate ", ".toList multiExcl,
       context := rageExtractContext text
         (match multiExcl with | [] => [] | m :: _ => m) }]
  else []

/-- The three profanity pattern families of `RageDetector.detectProfanity`
(`\*` is a literal asterisk). -/
def profanityPatterns : List RE :=
  [bounded (oneOf "damn" ["hell", "crap", "sucks", "bullsh*t", "bs"]),
   bounded (oneOf "f*ck" ["sh*t", "d*mn", "h*ll"]),
   bounded (oneOf "wtf" ["stfu", "gtfo", "fml"])]

/-- `RageDetector.detectProfanity`: matches of all three families (run on
the original-case text with the `i` flag), pooled into one indicator. -/
def detectProfanity (text : List Char) : List RageIndicator :=
  let allMatches := profanityPatterns.flatMap (fun re => jsMatchAll re text)
  if 0 < allMatches.length then
    [{ type := .profanity,
       intensity := min 1 ((allMatches.length : ℚ) * (3/10)),
       pattern := List.intercalate ", ".toList allMatches,
       context := rageExtractContext text
         (match allMatches with | [] => [] | m :: _ => m) }]
  else []

/-- The pattern-table loop of `RageDetector.detectRageIndicators`: one
indicator per rage pattern with at least one match, in table order. -/
def collectTableRage (text : List Char) : List RageIndicator :=
  ragePatterns.filterMap (fun p =>
    match jsMatchAll p.2.1 (toLowerL text) with
    | [] => none
    | m :: ms => createRageIndicator p.1 (m :: ms) p.2.2 text)

/-- `RageDetector.detectRageIndicators`: table matches, then the three
structural detectors, sorted by intensity, highest first. -/
def detectRageIndicators (text : List Char) : List RageIndicator :=
  sortDesc (fun i => i.intensity)
    (collectTableRage text ++ detectCapsLock text ++ detectExclamationSpam text ++
     detectProfanity text)

/-- The `typeWeights` table of `calculateRageRisk`. -/
def rageTypeWeight : RageType → ℚ
  | .verbalAggression => 9/10
  | .threatLanguage => 1
  | .profanity => 6/10
  | .capsLock => 4/10
  | .exclamationSpam => 3/10

/-- `RageDetector.calculateRageRisk`. -/
def calculateRageRisk (indicators : List RageIndicator) : ℚ :=
  if indicators.length = 0 then 0
  else
    min 1 ((indicators.foldl
      (fun acc i => acc + i.intensity * rageTypeWeight i.type) 0) / 2)

/-- The zero-valued analysis record `aggregateAnalyses` returns on empty
input. -/
def zeroAnalysis : NLPAnalysis :=
  { sentiment := { valence := 0, arousal := 0, confidence := 0 },
    cognitiveDistortions := [],
    rageIndicators := [],
    confidence := 0,
    processingTime := 0 }

/-- `NLPPipeline.aggregateAnalyses`. -/
def aggregateAnalyses (analyses : List NLPAnalysis) : NLPAnalysis :=
  if analyses.length = 0 then zeroAnalysis
  else
    let sentiments := analyses.map (fun a => a.sentiment)
    { sentiment :=
        { valence := (sentiments.foldl (fun acc s => acc + s.valence) 0) /
            (sentiments.length : ℚ),
          arousal := (sentiments.foldl (fun acc s => acc + s.arousal) 0) /
            (sentiments.length : ℚ),
          confidence := (sentiments.foldl (fun acc s => acc + s.confidence) 0) /
            (sentiments.length : ℚ) },
      cognitiveDistortions := analyses.flatMap (fun a => a.cognitiveDistortions),
      rageIndicators := analyses.flatMap (fun a => a.rageIndicators),
      confidence := (analyses.foldl (fun acc a => acc + a.confidence) 0) /
        (analyses.length : ℚ),
      processingTime := analyses.foldl (fun acc a => acc + a.processingTime) 0 }

/-- `NLPPipeline.calculateRiskScore`, with the distortion detector's rule
table passed explicitly (the pipeline holds a `DistortionDetector`
instance whose table starts as `defaultRules`). -/
def calculateRiskScore (rules : List RuleConfig) (analysis : NLPAnalysis) : ℚ :=
  let sentimentRisk :=
    max 0 ((-analysis.sentiment.valence + analysis.sentiment.arousal) / 2)
  let distortionRisk := calculateDistortionRisk rules
    (List.intercalate " ".toList
      (analysis.cognitiveDistortions.map (fun d => d.context)))
  let rageRisk := calculateRageRisk analysis.rageIndicators
  min 1 (sentimentRisk * (3/10) + distortionRisk * (2/5) + rageRisk * (3/10))

/-- `NLPPipeline.calculateConfidence`; `sentiment` may be `null`
(modelled by `Option`). -/
def calculateConfidence (sentiment : Option Sentiment)
    (distortions : List CognitiveDistortion)
    (rageIndicators : List RageIndicator) : ℚ :=
  let c1 : ℚ × ℚ :=
    match sentiment with
    | some s => if 0 < s.confidence then (s.confidence, 1) else (0, 0)
    | none => (0, 0)
  let c2 : ℚ × ℚ :=
    if 0 < distortions.length then
      (min 1 ((distortions.length : ℚ) * (1/5) +
        (distortions.foldl (fun acc d => acc + d.severity) 0) /
          (distortions.length : ℚ)), 1)
    else (0, 0)
  let c3 : ℚ × ℚ :=
    if 0 < rageIndicators.length then
      (min 1 ((rageIndicators.length : ℚ) * (1/5) +
        (rageIndicators.foldl (fun acc r => acc + r.intensity) 0) /
          (rageIndicators.length : ℚ)), 1)
    else (0, 0)
  let confidence := c1.1 + c2.1 + c3.1
  let factors := c1.2 + c2.2 + c3.2
  if 0 < factors then confidence / factors else 0

/-! ### Generic lemmas about the accumulator loops -/

theorem foldl_add_eq {α : Type} (f : α → ℚ) (l : List α) (a : ℚ) :
    l.foldl (fun acc x => acc + f x) a = a + (l.map f).sum := by
  induction l generalizing a with
  | nil => simp
  | cons x xs ih => simp [ih, add_assoc]

theorem mem_insertDesc {α : Type} (key : α → ℚ) (x y : α) (l : List α) :
    y ∈ insertDesc key x l ↔ y = x ∨ y ∈ l := by
  induction l with
  | nil => simp [insertDesc]
  | cons z zs ih =>
    by_cases h : key z < key x <;> simp [insertDesc, h, ih] <;> tauto

theorem mem_sortDesc_aux {α : Type} (key : α → ℚ) (l acc : List α) (y : α) :
    y ∈ l.foldl (fun acc x => insertDesc key x acc) acc ↔ y ∈ acc ∨ y ∈ l := by
  induction l generalizing acc with
  | nil => simp
  | cons z zs ih => simp [ih, mem_insertDesc]; tauto

theorem mem_sortDesc {α : Type} (key : α → ℚ) (l : List α) (y : α) :
    y ∈ sortDesc key l ↔ y ∈ l := by
  simp [sortDesc, mem_sortDesc_aux]

theorem le_foldl_max (l : List Nat) (a : Nat) : a ≤ l.foldl max a := by
  induction l generalizing a with
  | nil => simp
  | cons x xs ih => exact le_trans (Nat.le_max_left a x) (ih (max a x))

theorem mem_le_foldl_max (l : List Nat) (a x : Nat) (hx : x ∈ l) :
    x ≤ l.foldl max a := by
  induction l generalizing a with
  | nil => simp at hx
  | cons y ys ih =>
    rcases List.mem_cons.mp hx with rfl | h
    · exact le_trans (Nat.le_max_right a x) (le_foldl_max ys (max a x))
    · exact ih (max a y) h

theorem countTypes_aux (ds : List CognitiveDistortion)
    (acc : DistortionType → Nat) (t : DistortionType) :
    (ds.foldl (fun acc d => Function.update acc d.type (acc d.type + 1)) acc) t =
      acc t + ds.countP (fun d => d.type == t) := by
  induction ds generalizing acc with
  | nil => simp
  | cons d ds ih =>
    rw [List.foldl_cons, ih, List.countP_cons]
    by_cases h : d.type = t
    · subst h; simp [Function.update_apply, Nat.add_assoc, Nat.add_comm 1]
    · have : (d.type == t) = false := by simp [h]
      simp [Function.update_apply, h, Ne.symm h, this]

theorem countTypes_eq (ds : List CognitiveDistortion) (t : DistortionType) :
    countTypes ds t = ds.countP (fun d => d.type == t) := by
  simp [countTypes, countTypes_aux]

theorem sumSeverity_eq (ds : List CognitiveDistortion) :
    sumSeverity ds = (ds.map (fun d => d.severity)).sum := by
  simp [sumSeverity, foldl_add_eq]

theorem mostSevere_of_all_le (ds : List CognitiveDistortion) (maxSev : ℚ)
    (m : Option DistortionType) (h : ∀ d ∈ ds, d.severity ≤ maxSev) :
    mostSevere ds maxSev m = m := by
  induction ds with
  | nil => rfl
  | cons d ds ih =>
    have hd : d.severity ≤ maxSev := h d (List.mem_cons_self d ds)
    rw [mostSevere, if_neg (not_lt.mpr hd)]
    exact ih (fun d' hd' => h d' (List.mem_cons_of_mem d hd'))

theorem mostSevere_argmax (ds : List CognitiveDistortion) (maxSev : ℚ)
    (m : Option DistortionType) (h : ∃ d ∈ ds, maxSev < d.severity) :
    ∃ d ∈ ds, mostSevere ds maxSev m = some d.type ∧
      (∀ d' ∈ ds, d'.severity ≤ d.severity) ∧ maxSev < d.severity := by
  induction ds generalizing maxSev m with
  | nil => simp at h
  | cons d ds ih =>
    by_cases hd : maxSev < d.severity
    · rw [mostSevere, if_pos hd]
      by_cases h2 : ∃ d' ∈ ds, d.severity < d'.severity
      · obtain ⟨d2, hmem, heq, hall, hgt⟩ := ih d.severity (some d.type) h2
        exact ⟨d2, List.mem_cons_of_mem d hmem, heq,
          fun d' hd' => by
            rcases List.mem_cons.mp hd' with rfl | h'
            · exact le_of_lt hgt
            · exact hall d' h',
          lt_trans hd hgt⟩
      · push_neg at h2
        refine ⟨d, List.mem_cons_self d ds, mostSevere_of_all_le ds d.severity _ h2,
          fun d' hd' => ?_, hd⟩
        rcases List.mem_cons.mp hd' with rfl | h'
        · exact le_refl _
        · exact h2 d' h'
    · rw [mostSevere, if_neg hd]
      have h3 : ∃ d' ∈ ds, maxSev < d'.severity := by
        obtain ⟨d', hd', hgt⟩ := h
        rcases List.mem_cons.mp hd' with rfl | h'
        · exact absurd hgt hd
        · exact ⟨d', h', hgt⟩
      obtain ⟨d2, hmem, heq, hall, hgt⟩ := ih maxSev m h3
      exact ⟨d2, List.mem_cons_of_mem d hmem, heq,
        fun d' hd' => by
          rcases List.mem_cons.mp hd' with rfl | h'
          · exact le_trans (not_lt.mp hd) (le_of_lt hgt)
          · exact hall d' h',
        hgt⟩

/-! ### Claim C3 -/

/-- Claim C3: for every list of rage indicators, `calculateRageRisk`
returns `min 1` of the weighted intensity sum divided by 2, with type
weights threat = 1.0, verbal = 0.9, profanity = 0.6, caps = 0.4,
exclamation = 0.3, and returns 0 on the empty list. -/
theorem calculateRageRisk_spec (inds : List RageIndicator) :
    calculateRageRisk inds =
      min 1 ((inds.map (fun i => i.intensity * rageTypeWeight i.type)).sum / 2) ∧
    calculateRageRisk [] = 0 ∧
    rageTypeWeight .threatLanguage = 1 ∧
    rageTypeWeight .verbalAggression = 9/10 ∧
    rageTypeWeight .profanity = 6/10 ∧
    rageTypeWeight .capsLock = 4/10 ∧
    rageTypeWeight .exclamationSpam = 3/10 := by
  refine ⟨?_, by norm_num [calculateRageRisk], rfl, rfl, rfl, rfl, rfl⟩
  cases inds with
  | nil => norm_num [calculateRageRisk]
  | cons i is => simp [calculateRageRisk, foldl_add_eq]

/-! ### Claim C5 -/

/-- Claim C5: `aggregateAnalyses` of a non-empty record list returns the
element-wise mean of the sentiment fields, the concatenation (without
deduplication) of the distortion and rage indicator lists, the mean of
the confidences and the sum of the processing times; the empty list
yields the zero-valued record and no error. -/
theorem aggregateAnalyses_spec (l : List NLPAnalysis) :
    (l ≠ [] →
      (aggregateAnalyses l).sentiment.valence =
        (l.map (fun a => a.sentiment.valence)).sum / (l.length : ℚ) ∧
      (aggregateAnalyses l).sentiment.arousal =
        (l.map (fun a => a.sentiment.arousal)).sum / (l.length : ℚ) ∧
      (aggregateAnalyses l).sentiment.confidence =
        (l.map (fun a => a.sentiment.confidence)).sum / (l.length : ℚ) ∧
      (aggregateAnalyses l).cognitiveDistortions =
        (l.map (fun a => a.cognitiveDistortions)).flatten ∧
      (aggregateAnalyses l).rageIndicators =
        (l.map (fun a => a.rageIndicators)).flatten ∧
      (aggregateAnalyses l).confidence =
        (l.map (fun a => a.confidence)).sum / (l.length : ℚ) ∧
      (aggregateAnalyses l).processingTime =
        (l.map (fun a => a.processingTime)).sum) ∧
    aggregateAnalyses [] = zeroAnalysis := by
  constructor
  · intro hne
    have hlen : l.length ≠ 0 := by simpa using hne
    constructor
    · simp [aggregateAnalyses, hlen, foldl_add_eq, Function.comp_def]
    constructor
    · simp [aggregateAnalyses, hlen, foldl_add_eq, Function.comp_def]
    constructor
    · simp [aggregateAnalyses, hlen, foldl_add_eq, Function.comp_def]
    constructor
    · simp [aggregateAnalyses, hlen, List.flatMap_def]
    constructor
    · simp [aggregateAnalyses, hlen, List.flatMap_def]
    constructor
    · simp [aggregateAnalyses, hlen, foldl_add_eq]
    · simp [aggregateAnalyses, hlen, foldl_add_eq]
  · rfl

/-- Witness for C5 at the one-element list `[zeroAnalysis]`. -/
theorem aggregateAnalyses_spec_witness :
    ([zeroAnalysis] : List NLPAnalysis) ≠ [] ∧
    (aggregateAnalyses [zeroAnalysis]).processingTime =
      (([zeroAnalysis].map (fun a => a.processingTime)).sum) := by
  refine ⟨by simp, ?_⟩
  exact ((aggregateAnalyses_spec [zeroAnalysis]).1 (by simp)).2.2.2.2.2.2

/-! ### Claim C10 -/

/-- Claim C10: `updateRule` with an id absent from the rule table leaves
the table unchanged (no rule's pattern, weight, category or enabled flag
moves) and does not throw, so every later `detectDistortions` call
behaves as before the update. -/
theorem updateRule_frame (rules : List RuleConfig) (rid : String) (en : Bool)
    (h : ∀ r ∈ rules, r.ruleId ≠ rid) :
    updateRule rules rid en = rules ∧
    ∀ text, detectDistortions (updateRule rules rid en) text =
      detectDistortions rules text := by
  have heq : updateRule rules rid en = rules := by
    induction rules with
    | nil => rfl
    | cons r rs ih =>
      have hr : (r.ruleId == rid) = false := by
        simpa using h r (List.mem_cons_self r rs)
      rw [updateRule, hr]
      simp only [Bool.false_eq_true, if_false, List.cons.injEq, true_and]
      exact ih (fun r' hr' => h r' (List.mem_cons_of_mem r hr'))
  exact ⟨heq, fun text => by rw [heq]⟩

/-- Witness for C10: updating a nonexistent rule id on the default table
is the identity. -/
theorem updateRule_frame_witness :
    (∀ r ∈ defaultRules, r.ruleId ≠ "no_such_rule") ∧
    updateRule defaultRules "no_such_rule" false = defaultRules := by
  refine ⟨by decide, ?_⟩
  exact (updateRule_frame defaultRules "no_such_rule" false (by decide)).1

/-! ### Claim C4 -/

/-- The confidence factors as the spec describes them: whichever of the
sentiment reading's confidence (when positive), the distortion-derived
confidence and the rage-derived confidence are present. -/
def specConfidenceFactors (s : Option Sentiment)
    (ds : List CognitiveDistortion) (rs : List RageIndicator) : List ℚ :=
  (match s with
   | some v => if 0 < v.confidence then [v.confidence] else []
   | none => []) ++
  (if ds ≠ [] then
    [min 1 ((ds.length : ℚ) * (1/5) +
      (ds.map (fun d => d.severity)).sum / (ds.length : ℚ))]
   else []) ++
  (if rs ≠ [] then
    [min 1 ((rs.length : ℚ) * (1/5) +
      (rs.map (fun r => r.intensity)).sum / (rs.length : ℚ))]
   else [])

/-- The confidence accumulator equals the mean over the present factors
(0 when none is present). -/
theorem calcConfidence_factors (s : Option Sentiment)
    (ds : List CognitiveDistortion) (rs : List RageIndicator) :
    calculateConfidence s ds rs =
      if specConfidenceFactors s ds rs = [] then 0
      else (specConfidenceFactors s ds rs).sum /
        ((specConfidenceFactors s ds rs).length : ℚ) := by
  rcases s with _ | v
  · rcases ds with _ | ⟨d0, dt⟩ <;> rcases rs with _ | ⟨r0, rt⟩ <;>
      simp [calculateConfidence, specConfidenceFactors, foldl_add_eq] <;>
      ring_nf
  · by_cases h1 : 0 < v.confidence <;>
      rcases ds with _ | ⟨d0, dt⟩ <;> rcases rs with _ | ⟨r0, rt⟩ <;>
      simp [calculateConfidence, specConfidenceFactors, h1, foldl_add_eq] <;>
      ring_nf <;> norm_num

/-- Claim C4: the per-item confidence is the unweighted mean of exactly
the present factors among sentiment confidence (when positive), the
distortion-derived confidence `min(1, 0.2·count + meanSeverity)` and the
rage-derived confidence `min(1, 0.2·count + meanIntensity)`, and 0 when
none is present. -/
theorem calculateConfidence_spec (s : Option Sentiment)
    (ds : List CognitiveDistortion) (rs : List RageIndicator) :
    calculateConfidence s ds rs =
      if specConfidenceFactors s ds rs = [] then 0
      else (specConfidenceFactors s ds rs).sum /
        ((specConfidenceFactors s ds rs).length : ℚ) :=
  calcConfidence_factors s ds rs

/-! ### Claim C1 -/

/-- Every emitted distortion indicator comes from an enabled rule with at
least one match, carries that rule's category, and its severity follows
`createDistortion`'s formula. -/
theorem mem_detectDistortions {rules : List RuleConfig} {text : List Char}
    {d : CognitiveDistortion} (hd : d ∈ detectDistortions rules text) :
    ∃ rule ∈ rules, rule.enabled = true ∧
      1 ≤ (checkRule (toLowerL text) rule).length ∧
      d.type = rule.category ∧
      d.severity = min 1 (rule.weight +
        min (((checkRule (toLowerL text) rule).length : ℚ) * (1/10)) (1/2)) := by
  simp only [detectDistortions, collectDistortions, mem_sortDesc,
    List.mem_filterMap] at hd
  obtain ⟨rule, hmem, hsome⟩ := hd
  refine ⟨rule, hmem, ?_⟩
  by_cases hen : rule.enabled
  · rw [if_pos hen] at hsome
    rcases hcheck : checkRule (toLowerL text) rule with _ | ⟨m, ms⟩
    · rw [hcheck] at hsome; exact absurd hsome (by simp)
    · rw [hcheck] at hsome
      simp only [createDistortion, Option.some.injEq] at hsome
      subst hsome
      simp [hcheck, hen]
  · rw [if_neg hen] at hsome; exact absurd hsome (by simp)

/-- The first row of the default rule table. -/
def watchingRule : RuleConfig :=
  { ruleId := "persecution_watching",
    pattern := pat3 (oneOf "they" ["everyone", "people"])
      (oneOf "watching" ["monitoring", "tracking", "following", "stalking"])
      (oneOf "me" ["us"]),
    weight := 8/10, category := .persecution, enabled := true }

theorem collectDistortions_nil (text : List Char) :
    collectDistortions [] text = [] := rfl

theorem collectDistortions_cons_empty {text : List Char} {r : RuleConfig}
    (rs : List RuleConfig) (hck : checkRule (toLowerL text) r = []) :
    collectDistortions (r :: rs) text = collectDistortions rs text := by
  cases hen : r.enabled <;> simp [collectDistortions, hck, hen]

theorem collectDistortions_all_empty {text : List Char}
    {rules : List RuleConfig}
    (h : ∀ r ∈ rules, checkRule (toLowerL text) r = []) :
    collectDistortions rules text = [] := by
  induction rules with
  | nil => rfl
  | cons r rs ih =>
    rw [collectDistortions_cons_empty rs (h r (List.mem_cons_self r rs))]
    exact ih (fun r' hr' => h r' (List.mem_cons_of_mem r hr'))

theorem collectDistortions_cons_match {text : List Char} {r : RuleConfig}
    {m : List Char} {ms : List (List Char)} (rs : List RuleConfig)
    (hen : r.enabled = true) (hck : checkRule (toLowerL text) r = m :: ms) :
    collectDistortions (r :: rs) text =
      { type := r.category,
        severity := min 1 (r.weight + min (((m :: ms).length : ℚ) * (1/10)) (1/2)),
        keywords := (m :: ms).map (fun x => trimL (toLowerL x)),
        context := extractContext text m } :: collectDistortions rs text := by
  simp [collectDistortions, hen, hck, createDistortion]

/-- Evaluation of the detector on "they are watching me": exactly the
first rule fires, once, and the emitted severity is 0.9. -/
theorem detectDistortions_watching_eval :
    detectDistortions defaultRules ("they are watching me".toList) =
      [{ type := .persecution, severity := 9/10,
         keywords := ["they are watching me".toList],
         context := "they are watching me".toList }] := by
  have hsplit : defaultRules = watchingRule :: defaultRules.tail := rfl
  have hck : checkRule (toLowerL ("they are watching me".toList)) watchingRule =
      ["they are watching me".toList] := by decide
  have htail : ∀ r ∈ defaultRules.tail,
      checkRule (toLowerL ("they are watching me".toList)) r = [] := by decide
  rw [detectDistortions, hsplit,
    collectDistortions_cons_match defaultRules.tail rfl hck,
    collectDistortions_all_empty htail]
  have hkw : trimL (toLowerL ("they are watching me".toList)) =
      "they are watching me".toList := by decide
  have hctx : extractContext ("they are watching me".toList)
      ("they are watching me".toList) = "they are watching me".toList := by decide
  simp only [sortDesc, List.foldl_cons, List.foldl_nil, insertDesc,
    List.map_cons, List.map_nil, hkw, hctx, watchingRule]
  norm_num

/-- Claim C1 (amended): for every rule table and input text, each emitted
distortion indicator's severity is
`min(1, ruleWeight + min(0.1·matchCount, 0.5))` for an enabled rule with
`matchCount ≥ 1` — the frequency boost uses `0.1·matchCount`, not
`0.1·(matchCount − 1)`. -/
theorem distortion_severity_formula (rules : List RuleConfig) (text : List Char)
    (d : CognitiveDistortion) (hd : d ∈ detectDistortions rules text) :
    ∃ rule ∈ rules, rule.enabled = true ∧
      1 ≤ (checkRule (toLowerL text) rule).length ∧
      d.severity = min 1 (rule.weight +
        min (((checkRule (toLowerL text) rule).length : ℚ) * (1/10)) (1/2)) := by
  obtain ⟨rule, hmem, hen, hlen, _, hsev⟩ := mem_detectDistortions hd
  exact ⟨rule, hmem, hen, hlen, hsev⟩

/-- Witness for C1 at the text "they are watching me", which matches
exactly one rule exactly once. -/
theorem distortion_severity_formula_witness :
    ∃ d, d ∈ detectDistortions defaultRules ("they are watching me".toList) ∧
      ∃ rule ∈ defaultRules, rule.enabled = true ∧
        1 ≤ (checkRule (toLowerL ("they are watching me".toList)) rule).length ∧
        d.severity = min 1 (rule.weight +
          min (((checkRule (toLowerL ("they are watching me".toList)) rule).length : ℚ) *
            (1/10)) (1/2)) := by
  have hd : ({ type := DistortionType.persecution,
               severity := (9 : ℚ)/10,
               keywords := ["they are watching me".toList],
               context := "they are watching me".toList } : CognitiveDistortion) ∈
      detectDistortions defaultRules ("they are watching me".toList) := by
    rw [detectDistortions_watching_eval]
    exact List.mem_singleton.mpr rfl
  exact ⟨_, hd, distortion_severity_formula _ _ _ hd⟩

/-- Counterexample to C1 as stated: on "they are watching me" exactly one
enabled rule matches, exactly once, its weight is 0.8, and the claim's
formula `min(1, 0.8 + min(0.1·(1−1), 0.5))` predicts severity 0.8 — but
the emitted severity is 0.9 (the code boosts by `0.1·matchCount`). -/
theorem distortion_severity_counterexample :
    (defaultRules.map (fun r =>
      ((checkRule (toLowerL ("they are watching me".toList)) r).length,
        r.enabled))) =
      [(1, true), (0, true), (0, true), (0, true), (0, true), (0, true),
       (0, true), (0, true), (0, true), (0, true), (0, true), (0, true),
       (0, true), (0, true), (0, true), (0, true), (0, true), (0, true)] ∧
    (defaultRules.map (fun r => r.weight)) =
      [8/10, 9/10, 7/10, 6/10, 7/10, 5/10, 6/10, 7/10, 4/10, 6/10, 7/10,
       5/10, 4/10, 5/10, 6/10, 7/10, 5/10, 6/10] ∧
    (detectDistortions defaultRules ("they are watching me".toList)).map
      (fun d => d.severity) = [9/10] ∧
    ¬ (9/10 : ℚ) = min 1 (8/10 + min (((1 : ℚ) - 1) * (1/10)) (1/2)) := by
  refine ⟨by decide, by simp [defaultRules], ?_, by norm_num⟩
  rw [detectDistortions_watching_eval]
  rfl

/-! ### Claim C8 -/

/-- Claim C8 (amended): `getDistortionSummary` returns
`totalSeverity = min(1, Σ severities)` and a total per-category count map
(zero for categories with no indicator); `mostSevereType` is the category
of an indicator attaining the maximal severity provided some severity is
positive, and is `none` when the list is empty or every severity is ≤ 0
(the loop only replaces its running maximum, initialized to 0, on strict
increase). -/
theorem getDistortionSummary_spec (ds : List CognitiveDistortion) :
    (getDistortionSummary ds).totalSeverity =
      min 1 ((ds.map (fun d => d.severity)).sum) ∧
    (∀ t, (getDistortionSummary ds).typeCount t =
      ds.countP (fun d => d.type == t)) ∧
    ((∀ d ∈ ds, d.severity ≤ 0) →
      (getDistortionSummary ds).mostSevereType = none) ∧
    ((∃ d ∈ ds, 0 < d.severity) →
      ∃ d ∈ ds, (getDistortionSummary ds).mostSevereType = some d.type ∧
        ∀ d' ∈ ds, d'.severity ≤ d.severity) := by
  refine ⟨by simp [getDistortionSummary, sumSeverity_eq],
    fun t => by simp [getDistortionSummary, countTypes_eq], ?_, ?_⟩
  · intro h
    exact mostSevere_of_all_le ds 0 none h
  · intro h
    obtain ⟨d, hmem, heq, hall, _⟩ := mostSevere_argmax ds 0 none h
    exact ⟨d, hmem, heq, hall⟩

/-- A sample indicator of positive severity. -/
def halfSevSample : CognitiveDistortion :=
  { type := .persecution, severity := 1/2, keywords := [], context := [] }

/-- A sample indicator of severity 0. -/
def zeroSevSample : CognitiveDistortion :=
  { type := .persecution, severity := 0, keywords := [], context := [] }

/-- Witness for C8 on a one-indicator list with positive severity. -/
theorem getDistortionSummary_spec_witness :
    ∃ d ∈ [halfSevSample],
      (getDistortionSummary [halfSevSample]).mostSevereType = some d.type ∧
      ∀ d' ∈ [halfSevSample], d'.severity ≤ d.severity := by
  refine (getDistortionSummary_spec _).2.2.2 ?_
  exact ⟨_, List.mem_singleton.mpr rfl, by norm_num [halfSevSample]⟩

/-- Counterexample to C8 as stated: a non-empty indicator list whose
single indicator has severity 0 yields `mostSevereType = none`, while the
claim requires the category of the (unique) highest-severity indicator,
`persecution`, on every non-empty list. -/
theorem getDistortionSummary_counterexample :
    [zeroSevSample] ≠ [] ∧
    (getDistortionSummary [zeroSevSample]).mostSevereType = none := by
  refine ⟨by simp, ?_⟩
  simp [getDistortionSummary, mostSevere, zeroSevSample]

/-! ### Bounds of the risk and confidence functions -/

theorem rageTypeWeight_nonneg (t : RageType) : 0 ≤ rageTypeWeight t := by
  cases t <;> norm_num [rageTypeWeight]

theorem distortionTypeWeight_nonneg (t : DistortionType) :
    0 ≤ distortionTypeWeight t := by
  cases t <;> norm_num [distortionTypeWeight]

theorem calculateRageRisk_nonneg (inds : List RageIndicator)
    (h : ∀ i ∈ inds, 0 ≤ i.intensity) : 0 ≤ calculateRageRisk inds := by
  rw [calculateRageRisk]
  split
  · exact le_refl 0
  · refine le_min (by norm_num) ?_
    rw [foldl_add_eq]
    refine div_nonneg ?_ (by norm_num)
    simp only [zero_add]
    exact List.sum_nonneg (fun x hx => by
      obtain ⟨i, hi, rfl⟩ := List.mem_map.mp hx
      exact mul_nonneg (h i hi) (rageTypeWeight_nonneg i.type))

theorem calculateRageRisk_le_one (inds : List RageIndicator) :
    calculateRageRisk inds ≤ 1 := by
  rw [calculateRageRisk]
  split
  · norm_num
  · exact min_le_left _ _

theorem detectDistortions_severity_bounds (rules : List RuleConfig)
    (text : List Char) (hw : ∀ r ∈ rules, 0 ≤ r.weight) :
    ∀ d ∈ detectDistortions rules text, 0 ≤ d.severity ∧ d.severity ≤ 1 := by
  intro d hd
  obtain ⟨rule, hmem, _, _, _, hsev⟩ := mem_detectDistortions hd
  rw [hsev]
  refine ⟨le_min (by norm_num) ?_, min_le_left _ _⟩
  refine add_nonneg (hw rule hmem) (le_min ?_ (by norm_num))
  positivity

theorem getDistortionSummary_totalSeverity_bounds (ds : List CognitiveDistortion)
    (h : ∀ d ∈ ds, 0 ≤ d.severity) :
    0 ≤ (getDistortionSummary ds).totalSeverity ∧
      (getDistortionSummary ds).totalSeverity ≤ 1 := by
  rw [getDistortionSummary]
  refine ⟨le_min (by norm_num) ?_, min_le_left _ _⟩
  rw [sumSeverity_eq]
  exact List.sum_nonneg (fun x hx => by
    obtain ⟨dd, hdd, rfl⟩ := List.mem_map.mp hx
    exact h dd hdd)

theorem calculateDistortionRisk_bounds (rules : List RuleConfig)
    (text : List Char) (hw : ∀ r ∈ rules, 0 ≤ r.weight) :
    0 ≤ calculateDistortionRisk rules text ∧
      calculateDistortionRisk rules text ≤ 1 := by
  rw [calculateDistortionRisk]
  refine ⟨le_min (by norm_num) ?_, min_le_left _ _⟩
  refine add_nonneg ?_ ?_
  · exact List.sum_nonneg (fun x hx => by
      obtain ⟨t, _, rfl⟩ := List.mem_map.mp hx
      exact mul_nonneg (mul_nonneg (Nat.cast_nonneg _)
        (distortionTypeWeight_nonneg t)) (by norm_num))
  · refine mul_nonneg ?_ (by norm_num)
    exact (getDistortionSummary_totalSeverity_bounds _
      (fun d hd => (detectDistortions_severity_bounds rules text hw d hd).1)).1

theorem specConfidenceFactors_bounds (s : Option Sentiment)
    (ds : List CognitiveDistortion) (rs : List RageIndicator)
    (hs : ∀ v, s = some v → v.confidence ≤ 1)
    (hds : ∀ d ∈ ds, 0 ≤ d.severity) (hrs : ∀ r ∈ rs, 0 ≤ r.intensity) :
    ∀ x ∈ specConfidenceFactors s ds rs, 0 ≤ x ∧ x ≤ 1 := by
  intro x hx
  simp only [specConfidenceFactors, List.mem_append] at hx
  rcases hx with (hx | hx) | hx
  · rcases s with _ | v
    · simp at hx
    · by_cases h1 : 0 < v.confidence
      · simp only [h1, if_true, List.mem_singleton] at hx
        rw [hx]
        exact ⟨le_of_lt h1, hs v rfl⟩
      · simp [h1] at hx
  · by_cases h2 : ds = []
    · simp [h2] at hx
    · rw [if_pos h2] at hx
      rw [List.mem_singleton.mp hx]
      refine ⟨le_min (by norm_num) ?_, min_le_left _ _⟩
      refine add_nonneg (by positivity) ?_
      refine div_nonneg ?_ (by positivity)
      exact List.sum_nonneg (fun y hy => by
        obtain ⟨dd, hdd, rfl⟩ := List.mem_map.mp hy
        exact hds dd hdd)
  · by_cases h3 : rs = []
    · simp [h3] at hx
    · rw [if_pos h3] at hx
      rw [List.mem_singleton.mp hx]
      refine ⟨le_min (by norm_num) ?_, min_le_left _ _⟩
      refine add_nonneg (by positivity) ?_
      refine div_nonneg ?_ (by positivity)
      exact List.sum_nonneg (fun y hy => by
        obtain ⟨rr, hrr, rfl⟩ := List.mem_map.mp hy
        exact hrs rr hrr)

theorem mean_bounds (l : List ℚ) (h : ∀ x ∈ l, 0 ≤ x ∧ x ≤ 1) :
    0 ≤ l.sum / (l.length : ℚ) ∧ l.sum / (l.length : ℚ) ≤ 1 := by
  rcases l with _ | ⟨x, xs⟩
  · norm_num
  · have hpos : (0 : ℚ) < ((x :: xs).length : ℚ) := by
      simp only [List.length_cons]
      exact_mod_cast Nat.succ_pos xs.length
    constructor
    · exact div_nonneg (List.sum_nonneg (fun y hy => (h y hy).1)) (le_of_lt hpos)
    · rw [div_le_one hpos]
      calc (x :: xs).sum ≤ (x :: xs).length • (1 : ℚ) :=
            List.sum_le_card_nsmul _ 1 (fun y hy => (h y hy).2)
        _ = ((x :: xs).length : ℚ) := by simp

theorem calculateConfidence_bounds (s : Option Sentiment)
    (ds : List CognitiveDistortion) (rs : List RageIndicator)
    (hs : ∀ v, s = some v → v.confidence ≤ 1)
    (hds : ∀ d ∈ ds, 0 ≤ d.severity) (hrs : ∀ r ∈ rs, 0 ≤ r.intensity) :
    0 ≤ calculateConfidence s ds rs ∧ calculateConfidence s ds rs ≤ 1 := by
  rw [calcConfidence_factors]
  split
  · norm_num
  · exact mean_bounds _ (specConfidenceFactors_bounds s ds rs hs hds hrs)

theorem calculateRiskScore_bounds (rules : List RuleConfig) (a : NLPAnalysis)
    (hw : ∀ r ∈ rules, 0 ≤ r.weight) (hi : ∀ i ∈ a.rageIndicators, 0 ≤ i.intensity) :
    0 ≤ calculateRiskScore rules a ∧ calculateRiskScore rules a ≤ 1 := by
  rw [calculateRiskScore]
  refine ⟨le_min (by norm_num) ?_, min_le_left _ _⟩
  have h1 : (0 : ℚ) ≤ max 0 ((-a.sentiment.valence + a.sentiment.arousal) / 2) :=
    le_max_left 0 _
  have h2 := (calculateDistortionRisk_bounds rules
    (List.intercalate " ".toList (a.cognitiveDistortions.map (fun d => d.context))) hw).1
  have h3 := calculateRageRisk_nonneg a.rageIndicators hi
  have := mul_nonneg h1 (by norm_num : (0:ℚ) ≤ 3/10)
  have := mul_nonneg h2 (by norm_num : (0:ℚ) ≤ 2/5)
  have := mul_nonneg h3 (by norm_num : (0:ℚ) ≤ 3/10)
  linarith

/-! ### Claim C2 -/

/-- Claim C2: `calculateRiskScore` returns
`min(1, 0.3·max(0, (−valence + arousal)/2) + 0.4·d + 0.3·r)` where `d` is
the distortion risk of the concatenated distortion context snippets (not
the original text) and `r` is the rage risk of the record's rage
indicator list; for records satisfying the data model's invariants
(nonnegative rule weights and indicator intensities) the result lies in
[0, 1]. -/
theorem calculateRiskScore_spec (rules : List RuleConfig) (a : NLPAnalysis) :
    calculateRiskScore rules a =
      min 1 ((3/10) * max 0 ((-a.sentiment.valence + a.sentiment.arousal) / 2) +
        (2/5) * calculateDistortionRisk rules
          (List.intercalate " ".toList
            (a.cognitiveDistortions.map (fun d => d.context))) +
        (3/10) * calculateRageRisk a.rageIndicators) ∧
    ((∀ r ∈ rules, 0 ≤ r.weight) → (∀ i ∈ a.rageIndicators, 0 ≤ i.intensity) →
      0 ≤ calculateRiskScore rules a ∧ calculateRiskScore rules a ≤ 1) := by
  constructor
  · rw [calculateRiskScore]
    congr 1
    ring
  · exact fun hw hi => calculateRiskScore_bounds rules a hw hi

/-- Witness for C2 at the zero-valued record and the default rule table. -/
theorem calculateRiskScore_spec_witness :
    (∀ r ∈ defaultRules, 0 ≤ r.weight) ∧
    (∀ i ∈ zeroAnalysis.rageIndicators, 0 ≤ i.intensity) ∧
    (0 ≤ calculateRiskScore defaultRules zeroAnalysis ∧
      calculateRiskScore defaultRules zeroAnalysis ≤ 1) := by
  have hw : ∀ r ∈ defaultRules, 0 ≤ r.weight := by
    simp only [defaultRules, List.forall_mem_cons, List.forall_mem_nil]
    norm_num
  have hi : ∀ i ∈ zeroAnalysis.rageIndicators, 0 ≤ i.intensity := by
    simp [zeroAnalysis]
  exact ⟨hw, hi, (calculateRiskScore_spec defaultRules zeroAnalysis).2 hw hi⟩

/-! ### Claim C9 -/

theorem ragePatterns_weight_nonneg : ∀ p ∈ ragePatterns, 0 ≤ p.2.2 := by
  simp only [ragePatterns, List.forall_mem_cons, List.forall_mem_nil]
  norm_num

theorem collectTableRage_bounds (text : List Char) :
    ∀ i ∈ collectTableRage text, 0 ≤ i.intensity ∧ i.intensity ≤ 1 := by
  intro i hi
  simp only [collectTableRage, List.mem_filterMap] at hi
  obtain ⟨p, hp, hsome⟩ := hi
  rcases hm : jsMatchAll p.2.1 (toLowerL text) with _ | ⟨m, ms⟩
  · rw [hm] at hsome; simp at hsome
  · rw [hm] at hsome
    simp only [createRageIndicator, Option.some.injEq] at hsome
    subst hsome
    refine ⟨le_min (by norm_num) ?_, min_le_left _ _⟩
    have hcast : ((m :: ms).length : ℚ) - 1 = (ms.length : ℚ) := by
      push_cast [List.length_cons]
      ring
    rw [hcast]
    exact add_nonneg (ragePatterns_weight_nonneg p hp)
      (mul_nonneg (Nat.cast_nonneg _) (by norm_num))

theorem detectCapsLock_bounds (text : List Char) :
    ∀ i ∈ detectCapsLock text, 0 ≤ i.intensity ∧ i.intensity ≤ 1 := by
  intro i hi
  simp only [detectCapsLock, List.mem_singleton] at hi
  split_ifs at hi <;>
    first
    | exact absurd hi (List.not_mem_nil i)
    | { rw [List.mem_singleton] at hi
        subst hi
        exact ⟨le_min (by norm_num)
          (add_nonneg (div_nonneg (Nat.cast_nonneg _) (Nat.cast_nonneg _))
            (mul_nonneg (Nat.cast_nonneg _) (by norm_num))),
          min_le_left _ _⟩ }

theorem detectExclamationSpam_bounds (text : List Char) :
    ∀ i ∈ detectExclamationSpam text, 0 ≤ i.intensity ∧ i.intensity ≤ 1 := by
  intro i hi
  simp only [detectExclamationSpam] at hi
  split_ifs at hi with h1
  · simp only [List.mem_singleton] at hi
    subst hi
    refine ⟨le_min (by norm_num) ?_, min_le_left _ _⟩
    obtain ⟨run, hrun⟩ := List.exists_mem_of_length_pos h1
    have hlen : 1 < run.length := by
      have := List.mem_filter.mp hrun
      exact by simpa using this.2
    have hmax : run.length ≤
        (((runsOf (fun c => c == '!') text).filter
          (fun r => 1 < r.length)).map List.length).foldl max 0 :=
      mem_le_foldl_max _ 0 _ (List.mem_map.mpr ⟨run, hrun, rfl⟩)
    set M := (((runsOf (fun c => c == '!') text).filter
      (fun r => 1 < r.length)).map List.length).foldl max 0 with hM
    set C := ((runsOf (fun c => c == '!') text).filter
      (fun r => 1 < r.length)).length with hC
    have h2q : (2 : ℚ) ≤ (M : ℚ) := by exact_mod_cast le_trans hlen hmax
    have h3 : (0 : ℚ) ≤ (C : ℚ) * (1/10) :=
      mul_nonneg (Nat.cast_nonneg _) (by norm_num)
    linarith
  · simp at hi

theorem detectProfanity_bounds (text : List Char) :
    ∀ i ∈ detectProfanity text, 0 ≤ i.intensity ∧ i.intensity ≤ 1 := by
  intro i hi
  simp only [detectProfanity] at hi
  split_ifs at hi with h1
  · simp only [List.mem_singleton] at hi
    subst hi
    refine ⟨le_min (by norm_num) ?_, min_le_left _ _⟩
    exact mul_nonneg (Nat.cast_nonneg _) (by norm_num)
  · simp at hi

theorem detectRageIndicators_bounds (text : List Char) :
    ∀ i ∈ detectRageIndicators text, 0 ≤ i.intensity ∧ i.intensity ≤ 1 := by
  intro i hi
  rw [detectRageIndicators, mem_sortDesc] at hi
  simp only [List.mem_append] at hi
  rcases hi with ((h | h) | h) | h
  · exact collectTableRage_bounds text i h
  · exact detectCapsLock_bounds text i h
  · exact detectExclamationSpam_bounds text i h
  · exact detectProfanity_bounds text i h

theorem defaultRules_weight_nonneg : ∀ r ∈ defaultRules, 0 ≤ r.weight := by
  simp only [defaultRules, List.forall_mem_cons, List.forall_mem_nil]
  norm_num

/-- Claim C9: for every input text, every emitted rage indicator's
intensity and every emitted distortion indicator's severity lies in
[0, 1], and the rage risk, distortion risk, per-item confidence (for a
sentiment reading obeying the data model's `confidence ≤ 1`) and overall
risk score derived from those outputs lie in [0, 1]. -/
theorem engine_outputs_bounded (text : List Char) :
    (∀ i ∈ detectRageIndicators text, 0 ≤ i.intensity ∧ i.intensity ≤ 1) ∧
    (∀ d ∈ detectDistortions defaultRules text,
      0 ≤ d.severity ∧ d.severity ≤ 1) ∧
    (0 ≤ calculateRageRisk (detectRageIndicators text) ∧
      calculateRageRisk (detectRageIndicators text) ≤ 1) ∧
    (0 ≤ calculateDistortionRisk defaultRules text ∧
      calculateDistortionRisk defaultRules text ≤ 1) ∧
    (∀ s : Option Sentiment, (∀ v, s = some v → v.confidence ≤ 1) →
      0 ≤ calculateConfidence s (detectDistortions defaultRules text)
        (detectRageIndicators text) ∧
      calculateConfidence s (detectDistortions defaultRules text)
        (detectRageIndicators text) ≤ 1) ∧
    (∀ sen : Sentiment, ∀ conf pt : ℚ,
      0 ≤ calculateRiskScore defaultRules
        { sentiment := sen,
          cognitiveDistortions := detectDistortions defaultRules text,
          rageIndicators := detectRageIndicators text,
          confidence := conf, processingTime := pt } ∧
      calculateRiskScore defaultRules
        { sentiment := sen,
          cognitiveDistortions := detectDistortions defaultRules text,
          rageIndicators := detectRageIndicators text,
          confidence := conf, processingTime := pt } ≤ 1) := by
  refine ⟨detectRageIndicators_bounds text,
    detectDistortions_severity_bounds defaultRules text defaultRules_weight_nonneg,
    ⟨calculateRageRisk_nonneg _
        (fun i hi => (detectRageIndicators_bounds text i hi).1),
      calculateRageRisk_le_one _⟩,
    calculateDistortionRisk_bounds defaultRules text defaultRules_weight_nonneg,
    fun s hs => calculateConfidence_bounds s _ _ hs
      (fun d hd =>
        (detectDistortions_severity_bounds defaultRules text
          defaultRules_weight_nonneg d hd).1)
      (fun i hi => (detectRageIndicators_bounds text i hi).1),
    fun sen conf pt => calculateRiskScore_bounds defaultRules _
      defaultRules_weight_nonneg
      (fun i hi => (detectRageIndicators_bounds text i hi).1)⟩

/-- Witness for C9's conditional conjunct at a concrete sentiment
reading. -/
theorem engine_outputs_bounded_witness :
    (∀ v : Sentiment, (some { valence := 0, arousal := 0, confidence := 1/2 } :
        Option Sentiment) = some v → v.confidence ≤ 1) ∧
    (0 ≤ calculateConfidence (some { valence := 0, arousal := 0, confidence := 1/2 })
      (detectDistortions defaultRules ("I HATE this".toList))
      (detectRageIndicators ("I HATE this".toList)) ∧
    calculateConfidence (some { valence := 0, arousal := 0, confidence := 1/2 })
      (detectDistortions defaultRules ("I HATE this".toList))
      (detectRageIndicators ("I HATE this".toList)) ≤ 1) := by
  have hs : ∀ v : Sentiment, (some { valence := 0, arousal := 0, confidence := 1/2 } :
      Option Sentiment) = some v → v.confidence ≤ 1 := by
    intro v hv
    cases hv
    norm_num
  exact ⟨hs, ((engine_outputs_bounded ("I HATE this".toList)).2.2.2.2.1)
    (some { valence := 0, arousal := 0, confidence := 1/2 }) hs⟩

/-! ### Claim C6 -/

/-- Whether a pattern can only match by consuming at least one
non-whitespace character (true of every rule-table pattern, whose
alternatives all contain letters). -/
def needsNonWs : RE → Bool
  | .lit w => w.any (fun c => !isJsWs c)
  | .anyStar => false
  | .opt _ => false
  | .bnd => false
  | .cat r1 r2 => needsNonWs r1 || needsNonWs r2
  | .alt r1 r2 => needsNonWs r1 && needsNonWs r2

theorem lower_ws {c : Char} (h : isJsWs c = true) : lowerChar c = c := by
  simp only [isJsWs, Bool.or_eq_true, beq_iff_eq] at h
  rcases h with (((((rfl | rfl) | rfl) | rfl) | rfl) | rfl) | rfl <;> decide

theorem ws_not_letter {c : Char} (h : isJsWs c = true) : isLetterAZ c = false := by
  simp only [isJsWs, Bool.or_eq_true, beq_iff_eq] at h
  rcases h with (((((rfl | rfl) | rfl) | rfl) | rfl) | rfl) | rfl <;> decide

theorem ws_not_bang {c : Char} (h : isJsWs c = true) : (c == '!') = false := by
  simp only [isJsWs, Bool.or_eq_true, beq_iff_eq] at h
  rcases h with (((((rfl | rfl) | rfl) | rfl) | rfl) | rfl) | rfl <;> decide

theorem litAt_nonWs {t w : List Char} (hlit : litAt t w = true)
    (hw : w.any (fun c => !isJsWs c) = true) : ∃ c ∈ t, isJsWs c = false := by
  induction w generalizing t with
  | nil => simp at hw
  | cons d ds ih =>
    rcases t with _ | ⟨c, cs⟩
    · simp [litAt] at hlit
    · rw [litAt, Bool.and_eq_true] at hlit
      obtain ⟨h1, h2⟩ := hlit
      rw [List.any_cons, Bool.or_eq_true] at hw
      rcases hw with hd | hds
      · refine ⟨c, List.mem_cons_self c cs, ?_⟩
        by_cases hc : isJsWs c = true
        · exfalso
          rw [beq_iff_eq] at h1
          rw [lower_ws hc] at h1
          rw [h1] at hc
          simp [hc] at hd
        · simpa using hc
      · obtain ⟨c', hc', hcf⟩ := ih h2 hds
        exact ⟨c', List.mem_cons_of_mem c hc', hcf⟩

theorem flatMap_nil_of {α β : Type} (f : α → List β) (l : List α)
    (h : ∀ a ∈ l, f a = []) : l.flatMap f = [] := by
  induction l with
  | nil => rfl
  | cons a as ih =>
    rw [List.flatMap_cons, h a (List.mem_cons_self a as),
      ih (fun a' ha' => h a' (List.mem_cons_of_mem a ha'))]
    rfl

theorem filterMap_nil_of {α β : Type} (f : α → Option β) (l : List α)
    (h : ∀ a ∈ l, f a = none) : l.filterMap f = [] := by
  induction l with
  | nil => rfl
  | cons a as ih =>
    rw [List.filterMap_cons, h a (List.mem_cons_self a as)]
    exact ih (fun a' ha' => h a' (List.mem_cons_of_mem a ha'))

theorem matchEnds_nonWs {re : RE} {s : List Char}
    (hreq : needsNonWs re = true) (hws : ∀ c ∈ s, isJsWs c = true) :
    ∀ i, matchEnds re s i = [] := by
  induction re with
  | lit w =>
    intro i
    by_cases hl : litAt (s.drop i) w = true
    · exfalso
      obtain ⟨c, hc, hcf⟩ := litAt_nonWs hl hreq
      rw [hws c (List.drop_subset i s hc)] at hcf
      exact Bool.true_eq_false.mp hcf
    · simp only [matchEnds, if_neg hl]
  | anyStar => simp [needsNonWs] at hreq
  | opt c => simp [needsNonWs] at hreq
  | bnd => simp [needsNonWs] at hreq
  | cat r1 r2 ih1 ih2 =>
    intro i
    rw [needsNonWs, Bool.or_eq_true] at hreq
    rcases hreq with h1 | h2
    · rw [matchEnds, ih1 h1 i]
      rfl
    · rw [matchEnds]
      exact flatMap_nil_of _ _ (fun e _ => ih2 h2 e)
  | alt r1 r2 ih1 ih2 =>
    intro i
    rw [needsNonWs, Bool.and_eq_true] at hreq
    rw [matchEnds, ih1 hreq.1 i, ih2 hreq.2 i]
    rfl

theorem matchLoop_nil {re : RE} {s : List Char}
    (h : ∀ j, matchEnds re s j = []) :
    ∀ fuel i, matchLoop re s fuel i = [] := by
  intro fuel
  induction fuel with
  | zero => intro i; rfl
  | succ n ih =>
    intro i
    rw [matchLoop]
    split
    · rfl
    · rw [h i]
      exact ih (i + 1)

theorem jsMatchAll_nil {re : RE} {s : List Char}
    (hreq : needsNonWs re = true) (hws : ∀ c ∈ s, isJsWs c = true) :
    jsMatchAll re s = [] := by
  rw [jsMatchAll, matchLoop_nil (matchEnds_nonWs hreq hws)]
  rfl

theorem toLowerL_ws {text : List Char} (h : ∀ c ∈ text, isJsWs c = true) :
    ∀ c ∈ toLowerL text, isJsWs c = true := by
  intro c hc
  obtain ⟨c', hc', rfl⟩ := List.mem_map.mp hc
  rw [lower_ws (h c' hc')]
  exact h c' hc'

theorem runsSplit_nil_of {p : Char → Bool} {s : List Char}
    (h : ∀ c ∈ s, p c = false) : runsSplit p s = ([], []) := by
  induction s with
  | nil => rfl
  | cons c cs ih =>
    rw [runsSplit, ih (fun c' hc' => h c' (List.mem_cons_of_mem c hc'))]
    simp [h c (List.mem_cons_self c cs)]

theorem runsOf_nil_of {p : Char → Bool} {s : List Char}
    (h : ∀ c ∈ s, p c = false) : runsOf p s = [] := by
  rw [runsOf, runsSplit_nil_of h]
  rfl

theorem detectDistortions_ws {text : List Char}
    (hws : ∀ c ∈ text, isJsWs c = true) :
    detectDistortions defaultRules text = [] := by
  have hreq : ∀ r ∈ defaultRules, needsNonWs r.pattern = true := by decide
  rw [detectDistortions, collectDistortions_all_empty (fun r hr => by
    rw [checkRule]
    exact jsMatchAll_nil (hreq r hr) (toLowerL_ws hws))]
  rfl

theorem detectRageIndicators_ws {text : List Char}
    (hws : ∀ c ∈ text, isJsWs c = true) :
    detectRageIndicators text = [] := by
  have h1 : collectTableRage text = [] := by
    have hreq : ∀ p ∈ ragePatterns, needsNonWs p.2.1 = true := by decide
    refine filterMap_nil_of _ _ (fun p hp => ?_)
    rw [jsMatchAll_nil (hreq p hp) (toLowerL_ws hws)]
  have h2 : detectCapsLock text = [] := by
    have hlet : text.filter isLetterAZ = [] :=
      List.filter_eq_nil_iff.mpr (fun c hc => by simp [ws_not_letter (hws c hc)])
    simp [detectCapsLock, hlet]
  have h3 : detectExclamationSpam text = [] := by
    have hruns : runsOf (fun c => c == '!') text = [] :=
      runsOf_nil_of (fun c hc => ws_not_bang (hws c hc))
    simp [detectExclamationSpam, hruns]
  have h4 : detectProfanity text = [] := by
    have hreq : ∀ re ∈ profanityPatterns, needsNonWs re = true := by decide
    have hall : profanityPatterns.flatMap (fun re => jsMatchAll re text) = [] :=
      flatMap_nil_of _ _ (fun re hre => jsMatchAll_nil (hreq re hre) hws)
    simp [detectProfanity, hall]
  rw [detectRageIndicators, h1, h2, h3, h4]
  rfl

/-- Claim C6 (amended): for whitespace-only text, `detectRageIndicators`
and `detectDistortions` return empty indicator lists without error, and
the derived rage risk is 0. Short (< 10 characters) non-whitespace text
is not filtered by the detectors themselves — the minimum-length filter
lives in the extraction layer — see the counterexample. -/
theorem whitespace_detectors_empty (text : List Char)
    (hws : ∀ c ∈ text, isJsWs c = true) :
    detectRageIndicators text = [] ∧
    detectDistortions defaultRules text = [] ∧
    calculateRageRisk (detectRageIndicators text) = 0 := by
  refine ⟨detectRageIndicators_ws hws, detectDistortions_ws hws, ?_⟩
  rw [detectRageIndicators_ws hws]
  rfl

/-- Witness for C6 on a two-space text. -/
theorem whitespace_detectors_empty_witness :
    (∀ c ∈ ("  ".toList), isJsWs c = true) ∧
    (detectRageIndicators ("  ".toList) = [] ∧
     detectDistortions defaultRules ("  ".toList) = [] ∧
     calculateRageRisk (detectRageIndicators ("  ".toList)) = 0) :=
  ⟨by decide, whitespace_detectors_empty _ (by decide)⟩

/-- Counterexample to C6 as stated: the two-character text "!!" is
shorter than 10 characters, yet `detectRageIndicators` emits an
exclamation-spam indicator rather than the empty list. -/
theorem short_text_counterexample :
    ("!!".toList).length < 10 ∧ detectRageIndicators ("!!".toList) ≠ [] := by
  exact ⟨by decide, by decide⟩

/-! ### Claim C7 -/

theorem lower_nonWs {c : Char} (h : isJsWs c = false) :
    isJsWs (lowerChar c) = false := by
  rw [lowerChar]
  simp only [apply_ite isJsWs, h,
    show isJsWs 'a' = false by decide,
    show isJsWs 'b' = false by decide,
    show isJsWs 'c' = false by decide,
    show isJsWs 'd' = false by decide,
    show isJsWs 'e' = false by decide,
    show isJsWs 'f' = false by decide,
    show isJsWs 'g' = false by decide,
    show isJsWs 'h' = false by decide,
    show isJsWs 'i' = false by decide,
    show isJsWs 'j' = false by decide,
    show isJsWs 'k' = false by decide,
    show isJsWs 'l' = false by decide,
    show isJsWs 'm' = false by decide,
    show isJsWs 'n' = false by decide,
    show isJsWs 'o' = false by decide,
    show isJsWs 'p' = false by decide,
    show isJsWs 'q' = false by decide,
    show isJsWs 'r' = false by decide,
    show isJsWs 's' = false by decide,
    show isJsWs 't' = false by decide,
    show isJsWs 'u' = false by decide,
    show isJsWs 'v' = false by decide,
    show isJsWs 'w' = false by decide,
    show isJsWs 'x' = false by decide,
    show isJsWs 'y' = false by decide,
    show isJsWs 'z' = false by decide,
    ite_self]

theorem nonWs_of_lower {c : Char} (h : isJsWs (lowerChar c) = false) :
    isJsWs c = false := by
  by_cases hc : isJsWs c = true
  · exfalso
    rw [lower_ws hc] at h
    rw [hc] at h
    exact Bool.true_eq_false.mp h
  · simpa using hc

theorem indexOfSub_some {hay needle : List Char} {i : Nat}
    (h : indexOfSub hay needle = some i) :
    i + needle.length ≤ hay.length ∧
      hay.drop i = needle ++ hay.drop (i + needle.length) := by
  rw [indexOfSub] at h
  have hp := List.find?_some h
  have hmem := List.mem_of_find?_eq_some h
  rw [List.mem_range] at hmem
  have hpre : needle <+: hay.drop i := List.isPrefixOf_iff_prefix.mp hp
  obtain ⟨rest, hrest⟩ := hpre
  have hlen : needle.length ≤ (hay.drop i).length := by
    rw [← hrest]
    simp
  rw [List.length_drop] at hlen
  refine ⟨by omega, ?_⟩
  have hdd : hay.drop (i + needle.length) = (hay.drop i).drop needle.length :=
    (List.drop_drop needle.length i hay).symm
  rw [hdd, ← hrest, List.drop_left]

theorem slice_split {s : List Char} {u v w : Nat} (h1 : u ≤ v) (h2 : v ≤ w) :
    slice s u w = slice s u v ++ slice s v w := by
  rw [slice, slice, slice]
  have hw : w - u = (v - u) + (w - v) := by omega
  have huv : u + (v - u) = v := by omega
  rw [hw, List.take_add, List.drop_drop, huv]

theorem dropWhile_keeps {mseg : List Char} (x y : List Char) (hne : mseg ≠ [])
    (hh : ∀ c, mseg.head? = some c → isJsWs c = false) :
    ∃ x', (x ++ mseg ++ y).dropWhile isJsWs = x' ++ mseg ++ y := by
  induction x with
  | nil =>
    rcases mseg with _ | ⟨c, cs⟩
    · exact absurd rfl hne
    · refine ⟨[], ?_⟩
      simp [List.dropWhile_cons, hh c rfl]
  | cons a x ih =>
    by_cases ha : isJsWs a = true
    · obtain ⟨x', hx'⟩ := ih
      refine ⟨x', ?_⟩
      simpa [List.dropWhile_cons, ha] using hx'
    · refine ⟨a :: x, ?_⟩
      simp only [Bool.not_eq_true] at ha
      simp [List.dropWhile_cons, ha]

theorem trimL_keeps {mseg : List Char} (x y : List Char) (hne : mseg ≠ [])
    (hh : ∀ c, mseg.head? = some c → isJsWs c = false)
    (hl : ∀ c, mseg.getLast? = some c → isJsWs c = false) :
    ∃ x' y', trimL (x ++ mseg ++ y) = x' ++ mseg ++ y' := by
  obtain ⟨x', h1⟩ := dropWhile_keeps x y hne hh
  have hne' : mseg.reverse ≠ [] := by simpa using hne
  have hh' : ∀ c, mseg.reverse.head? = some c → isJsWs c = false := by
    intro c hc
    rw [List.head?_reverse] at hc
    exact hl c hc
  obtain ⟨y'', h2⟩ := dropWhile_keeps y.reverse x'.reverse hne' hh'
  refine ⟨x', y''.reverse, ?_⟩
  rw [trimL, h1]
  have hrev : (x' ++ mseg ++ y).reverse = y.reverse ++ mseg.reverse ++ x'.reverse := by
    simp [List.reverse_append, List.append_assoc]
  rw [hrev, h2]
  simp [List.reverse_append, List.append_assoc]

theorem hasSub_of_middle (x mseg y : List Char) :
    hasSub (x ++ mseg ++ y) mseg = true := by
  rw [hasSub, List.any_eq_true]
  refine ⟨x.length, List.mem_range.mpr ?_, ?_⟩
  · simp only [List.append_assoc, List.length_append]
    omega
  · rw [List.append_assoc, List.drop_left]
    exact List.isPrefixOf_iff_prefix.mpr ⟨y, rfl⟩

theorem lowered_window_contains {text m : List Char} {i : Nat} (radius : Nat)
    (hidx : indexOfSub (toLowerL text) (toLowerL m) = some i)
    (hne : m ≠ [])
    (hh : ∀ c, m.head? = some c → isJsWs c = false)
    (hl : ∀ c, m.getLast? = some c → isJsWs c = false) :
    hasSub (toLowerL (trimL (slice text (i - radius)
      (min text.length (i + m.length + radius))))) (toLowerL m) = true := by
  obtain ⟨hle, hdrop⟩ := indexOfSub_some hidx
  rw [toLowerL, toLowerL, List.length_map, List.length_map] at hle
  have hseg : toLowerL (slice text i (i + m.length)) = toLowerL m := by
    rw [slice, Nat.add_sub_cancel_left, toLowerL, List.map_take, List.map_drop]
    rw [show (text.map lowerChar) = toLowerL text from rfl, hdrop]
    rw [show m.length = (toLowerL m).length by simp [toLowerL]]
    exact List.take_left _ _
  have hseglen : (slice text i (i + m.length)).length = m.length := by
    rw [slice, Nat.add_sub_cancel_left, List.length_take, List.length_drop]
    omega
  have hsegne : slice text i (i + m.length) ≠ [] := by
    have : 0 < m.length := List.length_pos.mpr hne
    exact List.length_pos.mp (by omega : 0 < (slice text i (i + m.length)).length)
  have hsh : ∀ c, (slice text i (i + m.length)).head? = some c →
      isJsWs c = false := by
    intro c hc
    rcases hm : m.head? with _ | m0
    · exact absurd (List.head?_eq_none_iff.mp hm) hne
    · have h1 : (toLowerL (slice text i (i + m.length))).head? =
          some (lowerChar c) := by
        rw [toLowerL, List.head?_map, hc]
        rfl
      have h2 : (toLowerL m).head? = some (lowerChar m0) := by
        rw [toLowerL, List.head?_map, hm]
        rfl
      rw [hseg, h2, Option.some.injEq] at h1
      refine nonWs_of_lower ?_
      rw [← h1]
      exact lower_nonWs (hh m0 hm)
  have hsl : ∀ c, (slice text i (i + m.length)).getLast? = some c →
      isJsWs c = false := by
    intro c hc
    rcases hm : m.getLast? with _ | m1
    · rw [List.getLast?_eq_none_iff] at hm
      exact absurd hm hne
    · have hmr : m.reverse.head? = some m1 := by
        rw [List.head?_reverse]
        exact hm
      have hcr : (slice text i (i + m.length)).reverse.head? = some c := by
        rw [List.head?_reverse]
        exact hc
      have h1 : (toLowerL (slice text i (i + m.length))).reverse.head? =
          some (lowerChar c) := by
        rw [toLowerL, ← List.map_reverse, List.head?_map, hcr]
        rfl
      have h2 : (toLowerL m).reverse.head? = some (lowerChar m1) := by
        rw [toLowerL, ← List.map_reverse, List.head?_map, hmr]
        rfl
      rw [hseg, h2, Option.some.injEq] at h1
      refine nonWs_of_lower ?_
      rw [← h1]
      exact lower_nonWs (hl m1 hm)
  have ha : i - radius ≤ i := Nat.sub_le i radius
  have hbi : i + m.length ≤ min text.length (i + m.length + radius) :=
    le_min hle (by omega)
  have hwin : slice text (i - radius) (min text.length (i + m.length + radius)) =
      slice text (i - radius) i ++ slice text i (i + m.length) ++
        slice text (i + m.length) (min text.length (i + m.length + radius)) := by
    rw [slice_split ha (le_trans (by omega) hbi),
      slice_split (by omega : i ≤ i + m.length) hbi, ← List.append_assoc]
  rw [hwin]
  obtain ⟨x', y', htr⟩ := trimL_keeps _ _ hsegne hsh hsl
  rw [htr, toLowerL, List.map_append, List.map_append]
  rw [show (slice text i (i + m.length)).map lowerChar =
    toLowerL (slice text i (i + m.length)) from rfl, hseg]
  exact hasSub_of_middle _ _ _

/-- Claim C7 (amended): for a nonempty match whose first and last
characters are not whitespace (true of every match the rule tables can
produce), the extracted context contains the matched text up to letter
case — the lowercased context contains the lowercased match — whenever
the match can be located in the source text, and equals the match itself
otherwise. Case-sensitive containment fails because the context window is
cut from the original-case text while matches come from the lowercased
text; see the counterexample. -/
theorem extractContext_contains (text m : List Char) (hne : m ≠ [])
    (hh : ∀ c, m.head? = some c → isJsWs c = false)
    (hl : ∀ c, m.getLast? = some c → isJsWs c = false) :
    (indexOfSub (toLowerL text) (toLowerL m) = none →
      extractContext text m = m ∧ rageExtractContext text m = m) ∧
    (∀ i, indexOfSub (toLowerL text) (toLowerL m) = some i →
      hasSub (toLowerL (extractContext text m)) (toLowerL m) = true ∧
      hasSub (toLowerL (rageExtractContext text m)) (toLowerL m) = true) := by
  constructor
  · intro hnone
    constructor
    · rw [extractContext, hnone]
    · rw [rageExtractContext, hnone]
  · intro i hsome
    constructor
    · rw [extractContext, hsome]
      exact lowered_window_contains 50 hsome hne hh hl
    · rw [rageExtractContext, hsome]
      exact lowered_window_contains 30 hsome hne hh hl

/-- Witness for C7 at the rage detector's scenario text. -/
theorem extractContext_contains_witness :
    ("hate".toList ≠ [] ∧
     indexOfSub (toLowerL ("I HATE this".toList)) (toLowerL ("hate".toList)) =
       some 2) ∧
    (hasSub (toLowerL (extractContext ("I HATE this".toList) ("hate".toList)))
      (toLowerL ("hate".toList)) = true ∧
    hasSub (toLowerL (rageExtractContext ("I HATE this".toList) ("hate".toList)))
      (toLowerL ("hate".toList)) = true) := by
  refine ⟨⟨by decide, by decide⟩, ?_⟩
  exact (extractContext_contains ("I HATE this".toList) ("hate".toList)
    (by decide) (by decide) (by decide)).2 2 (by decide)

/-- Counterexample to C7 as stated: on "I HATE this" the rage detector
emits an indicator whose matched text is the lowercased "hate"; the match
is locatable in the source text (index 2, case-insensitively), yet the
emitted context "I HATE this" does not contain the matched text
literally, and is not equal to the match either. -/
theorem extractContext_counterexample :
    (∃ ind ∈ detectRageIndicators ("I HATE this".toList),
      ind.pattern = "hate".toList ∧ ind.context = "I HATE this".toList ∧
      hasSub ind.context ind.pattern = false ∧ ind.context ≠ ind.pattern) ∧
    indexOfSub (toLowerL ("I HATE this".toList)) (toLowerL ("hate".toList)) =
      some 2 := by
  exact ⟨by decide, by decide⟩

end RealityCheck
